import Mathlib

/-!
Verification of the opencode-micromanager plugin
(src/.opencode/plugins/message-interceptor.ts) against its specification.

The plugin is a single TypeScript file.  This development shallowly embeds
its data model and handlers:

* JavaScript strings are Lean `String`s; JS string indices (UTF-16 code
  units) are modelled as character indices, which agrees with the source
  on all code points of the Basic Multilingual Plane and, for the index
  arithmetic used here (occurrence positions of ASCII needles followed by
  substring at those positions), is extensionally the same extraction.
* Host functionality (the filesystem, the external editor process,
  JSON.parse / JSON.stringify of host objects, the clock) is modelled by
  explicit parameters: the editor round trip is an `EditorRun` value
  describing which of the fallible steps succeed and what the edited file
  holds afterwards, per-part JSON serialisations are carried as string
  fields of `Part`, and the timestamp is an argument.
* Mutation of `output.messages` is modelled by returning the new list;
  the analytics counters and captured system prompt are threaded through
  `PluginState`.
-/

namespace Micromanager

/-! ### JavaScript string primitives

`matchesAt pat s` holds when `pat` occurs at the very start of `s`;
the occurrence scanners below implement `String.prototype.lastIndexOf`,
`String.prototype.indexOf(pat, from)`, `substring`, the regex
`/^\n+/`-strip and `trim` used by the plugin. -/

def matchesAt : List Char → List Char → Bool
  | [], _ => true
  | _ :: _, [] => false
  | p :: ps, c :: cs => p == c && matchesAt ps cs

def lastOccAux (pat : List Char) : List Char → Nat → Option Nat → Option Nat
  | [], i, best => if matchesAt pat [] then some i else best
  | c :: rest, i, best =>
      lastOccAux pat rest (i + 1) (if matchesAt pat (c :: rest) then some i else best)

def firstOccAux (pat : List Char) : List Char → Nat → Option Nat
  | [], i => if matchesAt pat [] then some i else none
  | c :: rest, i => if matchesAt pat (c :: rest) then some i else firstOccAux pat rest (i + 1)

/-- JS `s.lastIndexOf(pat)`: index of the last occurrence, `none` for -1. -/
def strLastIndexOf (s pat : String) : Option Nat :=
  lastOccAux pat.data s.data 0 none

/-- JS `s.indexOf(pat, start)`: first occurrence at an index ≥ `start`. -/
def strIndexOfFrom (s pat : String) (start : Nat) : Option Nat :=
  firstOccAux pat.data (s.data.drop start) start

/-- JS `s.substring(n)`. -/
def strDropChars (s : String) (n : Nat) : String :=
  String.mk (s.data.drop n)

/-- JS `s.substring(0, n)`. -/
def strTakeChars (s : String) (n : Nat) : String :=
  String.mk (s.data.take n)

/-- The replacement `s.replace(/^\n+/, "")` at message-interceptor.ts:247. -/
def dropLeadingNewlines (s : String) : String :=
  String.mk (s.data.dropWhile (· == '\n'))

/-- Whitespace stripped by JS `trim` (the ASCII members of the class). -/
def isJsSpace (c : Char) : Bool :=
  c == ' ' || c == '\t' || c == '\n' || c == '\r' || c == '\x0b' || c == '\x0c'

/-- JS `s.trim()`. -/
def jsTrim (s : String) : String :=
  String.mk (((s.data.dropWhile isJsSpace).reverse.dropWhile isJsSpace).reverse)

/-- Whether `pat` occurs anywhere in `s` (JS `s.includes(pat)`), expressed
through the same scanner as `lastIndexOf`. -/
def strContains (s pat : String) : Bool :=
  (strLastIndexOf s pat).isSome

/-- JS `x || d` for a possibly-absent string `x`: the empty string is falsy. -/
def jsOrStr (x : Option String) (d : String) : String :=
  match x with
  | some s => if s = "" then d else s
  | none => d

/-- JS `String.prototype.toUpperCase`, at the ASCII level of Lean's
`Char.toUpper` (the roles the host passes are ASCII). -/
def jsToUpper (s : String) : String :=
  String.mk (s.data.map Char.toUpper)

/-! ### Data model

Mirrors the anonymous object shapes used by the plugin. -/

/-- One entry of `msg.parts`.  `text` is `part.text`; `tool` and `name` are
the optional `part.tool` / `part.name`; `input` and `output` hold the
already-serialised `JSON.stringify(part.input, null, 2)` (resp. the string
rendering of `part.output`) when those fields are truthy; `jsonStr` stands
for `JSON.stringify(part)`, used for parts of unknown type. -/
structure Part where
  type : String
  text : String := ""
  tool : Option String := none
  name : Option String := none
  input : Option String := none
  output : Option String := none
  jsonStr : String := ""
deriving DecidableEq

/-- The shape `{ role, parts }` produced at message-interceptor.ts:183-186. -/
structure Msg where
  role : String
  parts : List Part
deriving DecidableEq

/-- The `m.info` projection of a message of `output.messages`. -/
structure MsgInfo where
  role : String
deriving DecidableEq

/-- One element of `output.messages` as the handler reads it. -/
structure MsgEntry where
  info : MsgInfo
  parts : List Part
deriving DecidableEq

/-- The model object: `providerID`/`modelID` when present, plus `jsStr`,
the JS string coercion of the object used by the template literal fallback
`model.providerID || model`. -/
structure ModelInfo where
  providerID : Option String := none
  modelID : Option String := none
  jsStr : String := ""
deriving DecidableEq

/-- The plugin configuration record (message-interceptor.ts:8-15). -/
structure Config where
  logLevel : String
  enableEditor : Bool
  editor : String
  autoEdit : Bool
  showSystemMessages : Bool
  messageTypes : List String
deriving DecidableEq

/-- A parsed config file: each present field overrides the default
(the object spread at message-interceptor.ts:34). -/
structure ConfigPatch where
  logLevel : Option String := none
  enableEditor : Option Bool := none
  editor : Option String := none
  autoEdit : Option Bool := none
  showSystemMessages : Option Bool := none
  messageTypes : Option (List String) := none
deriving DecidableEq

/-- The analytics counters (message-interceptor.ts:54-58). -/
structure Analytics where
  messagesIntercepted : Nat
  messagesEdited : Nat
  editorSessions : Nat
deriving DecidableEq

/-- One record sent to `client.app.log`. -/
structure LogRecord where
  level : String
  message : String
deriving DecidableEq

/-- The closure state of the plugin: the (possibly merged) config, the
system prompt and model captured by `experimental.chat.system.transform`,
and the analytics counters. -/
structure PluginState where
  config : Config
  capturedSystem : List String
  capturedModel : Option ModelInfo
  analytics : Analytics
deriving DecidableEq

/-! ### Config loading (message-interceptor.ts:7-52) -/

/-- The defaults at message-interceptor.ts:8-15; `envEditor` is
`process.env.EDITOR`. -/
def defaultConfig (envEditor : Option String) : Config :=
  { logLevel := "info"
    enableEditor := true
    editor := jsOrStr envEditor "code -w"
    autoEdit := false
    showSystemMessages := true
    messageTypes := ["user", "assistant"] }

/-- The object spread `{ ...config, ...loadedConfig }`. -/
def mergeConfig (base : Config) (p : ConfigPatch) : Config :=
  { logLevel := p.logLevel.getD base.logLevel
    enableEditor := p.enableEditor.getD base.enableEditor
    editor := p.editor.getD base.editor
    autoEdit := p.autoEdit.getD base.autoEdit
    showSystemMessages := p.showSystemMessages.getD base.showSystemMessages
    messageTypes := p.messageTypes.getD base.messageTypes }

/-- The inner try/catch at message-interceptor.ts:27-31: read
`.micromanager.jsonc`, and on failure fall back to `.micromanager.json`
(whose own failure propagates to the outer catch). -/
def readConfigData (jsonc jsonFile : Except String String) : Except String String :=
  match jsonc with
  | .ok s => .ok s
  | .error _ => jsonFile

/-- The outer try/catch at message-interceptor.ts:24-52.  `parse` models
`JSON.parse` composed with the comment stripper on the host side; any
error — read or parse — is caught: the defaults are kept and a warn
record is logged.  On success the merged config is logged at info. -/
def loadConfig (envEditor : Option String) (jsonc jsonFile : Except String String)
    (parse : String → Except String ConfigPatch) : Config × List LogRecord :=
  let base := defaultConfig envEditor
  match readConfigData jsonc jsonFile with
  | .error _ => (base, [{ level := "warn", message := "Using default configuration" }])
  | .ok data =>
    match parse data with
    | .error _ => (base, [{ level := "warn", message := "Using default configuration" }])
    | .ok p => (mergeConfig base p,
        [{ level := "info", message := "Configuration loaded from .micromanager.json" }])

/-! ### Logging (message-interceptor.ts:60-75) -/

def logLevels : List String := ["debug", "info", "warn", "error"]

def jsIndexOfAux (x : String) : List String → Nat → Int
  | [], _ => -1
  | y :: ys, i => if y = x then (i : Int) else jsIndexOfAux x ys (i + 1)

/-- JS `Array.prototype.indexOf`: -1 when absent. -/
def jsIndexOf (xs : List String) (x : String) : Int :=
  jsIndexOfAux x xs 0

/-- The `log` helper (message-interceptor.ts:60-75): emits one record when
`messageLevelIndex >= currentLevelIndex`. -/
def logCall (cfgLevel level message : String) : List LogRecord :=
  if jsIndexOf logLevels level ≥ jsIndexOf logLevels cfgLevel then
    [{ level := level, message := message }]
  else []

/-! ### Document rendering (message-interceptor.ts:82-164) -/

/-- Rendering of one part (the loop body at message-interceptor.ts:129-152),
including the blank line pushed after every part. -/
def renderPart (part : Part) : List String :=
  (if part.type = "text" then
    [part.text]
  else if part.type = "tool" then
    ["**[Tool: " ++ jsOrStr part.tool (jsOrStr part.name "unknown") ++ "]**"]
    ++ (match part.input with
        | some inp => ["```json", inp, "```"]
        | none => [])
    ++ (match part.output with
        | some out => ["Output:", "```", out, "```"]
        | none => [])
  else
    ["[" ++ part.type ++ ": " ++ strTakeChars part.jsonStr 200 ++ "]"])
  ++ [""]

/-- The header pushed for message `i` of `n` (message-interceptor.ts:121-125). -/
def msgHeader (n i : Nat) (role : String) : String :=
  if i = n - 1 ∧ role = "user" then
    "## [" ++ Nat.repr (i + 1) ++ "/" ++ Nat.repr n ++ "] " ++ jsToUpper role
      ++ " (Current - Editable)"
  else
    "## [" ++ Nat.repr (i + 1) ++ "/" ++ Nat.repr n ++ "] " ++ jsToUpper role

/-- The lines pushed for message `i` of `n`: header, blank line, rendered
parts, and the closing separator. -/
def msgBlock (n i : Nat) (msg : Msg) : List String :=
  [msgHeader n i msg.role, ""] ++ msg.parts.flatMap renderPart ++ ["---", ""]

/-- The preamble lines (message-interceptor.ts:90-99). -/
def contextPre (timestamp : String) (model : Option ModelInfo) (n : Nat) : List String :=
  ["# OpenCode Micromanager - Full LLM Context", "", "**Timestamp:** " ++ timestamp]
  ++ (match model with
      | some m => ["**Model:** " ++ jsOrStr m.providerID m.jsStr ++ "/" ++ m.modelID.getD ""]
      | none => [])
  ++ ["**Messages:** " ++ Nat.repr n, ""]

/-- The system-prompt section (message-interceptor.ts:102-113): present
exactly when the system array is non-empty. -/
def systemSection (system : List String) : List String :=
  if system.length > 0 then
    ["## System Prompt", ""] ++ system.flatMap (fun s => [s, ""]) ++ ["---", ""]
  else []

/-- All lines pushed by `formatFullContext`, in push order. -/
def formatFullContextLines (timestamp : String) (system : List String)
    (messages : List Msg) (model : Option ModelInfo) : List String :=
  contextPre timestamp model messages.length
  ++ systemSection system
  ++ messages.enum.flatMap (fun p => msgBlock messages.length p.1 p.2)

/-- `formatFullContext`: the pushed lines joined with newlines
(message-interceptor.ts:163). -/
def formatFullContext (timestamp : String) (system : List String)
    (messages : List Msg) (model : Option ModelInfo) : String :=
  String.intercalate "\n" (formatFullContextLines timestamp system messages model)

/-! ### The splice (message-interceptor.ts:233-273) -/

/-- The text extracted from the edited file: content after the first
newline following the last "(Current - Editable)", leading newlines
stripped, truncated before the last "\n---" when present, and trimmed.
`none` when the marker, or a newline after it, is missing — in the source
those cases skip the whole update. -/
def spliceNewText (editedContent : String) : Option String :=
  match strLastIndexOf editedContent "(Current - Editable)" with
  | none => none
  | some markerIndex =>
    match strIndexOfFrom editedContent "\n" markerIndex with
    | none => none
    | some afterMarker =>
      let content1 := dropLeadingNewlines (strDropChars editedContent (afterMarker + 1))
      let content2 :=
        match strLastIndexOf content1 "\n---" with
        | some trailingSeparator => strTakeChars content1 trailingSeparator
        | none => content1
      some (jsTrim content2)

/-- The loop at message-interceptor.ts:259-273: set the text of the first
text-typed part, leave everything else alone. -/
def updateFirstTextPart (parts : List Part) (newText : String) : List Part :=
  match parts with
  | [] => []
  | p :: rest =>
    if p.type = "text" then { p with text := newText } :: rest
    else p :: updateFirstTextPart rest newText

/-- The guard `lastMsg.parts.some((p) => p.type === "text")`. -/
def hasTextPart (parts : List Part) : Bool :=
  parts.any (fun p => p.type = "text")

/-- The text of the first text-typed part, when one exists. -/
def firstTextText (parts : List Part) : Option String :=
  (parts.find? (fun p => p.type = "text")).map (fun p => p.text)

/-! ### The hook handlers (message-interceptor.ts:166-311) -/

/-- The `experimental.chat.system.transform` handler: copies the system
array and the model into the closure state and logs at info. -/
def systemTransform (st : PluginState) (inputModel : Option ModelInfo)
    (outputSystem : List String) : PluginState × List LogRecord :=
  ({ st with capturedSystem := outputSystem, capturedModel := inputModel },
   logCall st.config.logLevel "info" "System prompt captured")

/-- How the fallible host steps of the editor round trip play out:
which step throws, or — when all succeed — the edited file content and
whether the final `unlink` succeeds. -/
inductive EditorRun where
  | mkdtempFail
  | writeFail
  | execFail
  | readFail
  | done (edited : String) (unlinkOk : Bool)
deriving DecidableEq

/-- Whether a run raises an error inside the try block. -/
def runFails : EditorRun → Bool
  | .mkdtempFail => true
  | .writeFail => true
  | .execFail => true
  | .readFail => true
  | .done _ unlinkOk => !unlinkOk

/-- The observable outcome of one `experimental.chat.messages.transform`
invocation: the message list after the call, the analytics counters, the
emitted log records, whether `execSync` ran to completion, the document
on disk when the editor was invoked, and the handler-created filesystem
entries still present at return. -/
structure HandlerResult where
  messages : List MsgEntry
  analytics : Analytics
  logs : List LogRecord
  editorOpened : Bool
  written : Option String
  fsRemaining : List String
deriving DecidableEq

/-- The `experimental.chat.messages.transform` handler
(message-interceptor.ts:180-281).  `tempDir` is the directory `mkdtemp`
would yield, `timestamp` the clock reading inside `formatFullContext`,
and `run` the behaviour of the host steps. -/
def messagesTransform (st : PluginState) (outputMessages : List MsgEntry)
    (tempDir timestamp : String) (run : EditorRun) : HandlerResult :=
  let analytics1 :=
    { st.analytics with messagesIntercepted := st.analytics.messagesIntercepted + 1 }
  let msgs := outputMessages.map (fun m => Msg.mk m.info.role m.parts)
  let logs1 := logCall st.config.logLevel "info" "Full message context captured"
  if !st.config.enableEditor || !st.config.autoEdit then
    { messages := outputMessages, analytics := analytics1, logs := logs1,
      editorOpened := false, written := none, fsRemaining := [] }
  else
    match outputMessages.getLast? with
    | none =>
      { messages := outputMessages, analytics := analytics1, logs := logs1,
        editorOpened := false, written := none, fsRemaining := [] }
    | some lastMsg =>
      if !hasTextPart lastMsg.parts then
        { messages := outputMessages, analytics := analytics1, logs := logs1,
          editorOpened := false, written := none, fsRemaining := [] }
      else
        let doc := formatFullContext timestamp
          (if st.config.showSystemMessages then st.capturedSystem else [])
          msgs st.capturedModel
        let tempFile := tempDir ++ "/message.md"
        let errLog := logCall st.config.logLevel "error" "Failed to edit message"
        let openLog := logCall st.config.logLevel "info" "Opening editor for full context review"
        match run with
        | .mkdtempFail =>
          { messages := outputMessages, analytics := analytics1, logs := logs1 ++ errLog,
            editorOpened := false, written := none, fsRemaining := [] }
        | .writeFail =>
          { messages := outputMessages, analytics := analytics1, logs := logs1 ++ errLog,
            editorOpened := false, written := none, fsRemaining := [tempDir] }
        | .execFail =>
          { messages := outputMessages, analytics := analytics1,
            logs := logs1 ++ openLog ++ errLog,
            editorOpened := false, written := some doc, fsRemaining := [tempDir, tempFile] }
        | .readFail =>
          { messages := outputMessages,
            analytics := { analytics1 with editorSessions := analytics1.editorSessions + 1 },
            logs := logs1 ++ openLog ++ errLog,
            editorOpened := true, written := some doc, fsRemaining := [tempDir, tempFile] }
        | .done edited unlinkOk =>
          let analytics2 :=
            { analytics1 with editorSessions := analytics1.editorSessions + 1 }
          let tailLogs := if unlinkOk then [] else errLog
          let remaining := if unlinkOk then [tempDir] else [tempDir, tempFile]
          match spliceNewText edited with
          | none =>
            { messages := outputMessages, analytics := analytics2,
              logs := logs1 ++ openLog ++ tailLogs,
              editorOpened := true, written := some doc, fsRemaining := remaining }
          | some newText =>
            if hasTextPart lastMsg.parts then
              { messages := outputMessages.dropLast
                  ++ [{ lastMsg with parts := updateFirstTextPart lastMsg.parts newText }],
                analytics := { analytics2 with messagesEdited := analytics2.messagesEdited + 1 },
                logs := logs1 ++ openLog
                  ++ logCall st.config.logLevel "info" "User message edited successfully"
                  ++ tailLogs,
                editorOpened := true, written := some doc, fsRemaining := remaining }
            else
              { messages := outputMessages, analytics := analytics2,
                logs := logs1 ++ openLog ++ tailLogs,
                editorOpened := true, written := some doc, fsRemaining := remaining }

/-- The `chat.message` handler: a debug log only. -/
def chatMessageHandler (st : PluginState) : List LogRecord :=
  logCall st.config.logLevel "debug" "chat.message fired"

/-- The `event` handler: on `session.created`, reset the counters and log. -/
def eventHandler (st : PluginState) (eventType : String) : PluginState × List LogRecord :=
  if eventType = "session.created" then
    ({ st with analytics := Analytics.mk 0 0 0 },
     logCall st.config.logLevel "info" "New session started")
  else (st, [])

/-- The `tool.execute.before` handler: a debug log only. -/
def toolExecuteBeforeHandler (st : PluginState) : List LogRecord :=
  logCall st.config.logLevel "debug" "Tool execution intercepted"

/-- The keys of the hooks object returned by `MessageInterceptorPlugin`
(message-interceptor.ts:166-311), in source order. -/
def registeredHooks : List String :=
  ["experimental.chat.system.transform",
   "experimental.chat.messages.transform",
   "chat.message",
   "event",
   "tool.execute.before"]

/-- The try/catch constructs of the plugin source, with their line spans:
the inner config-read fallback, the outer config loader, and the editor
round trip. -/
def tryCatchRegions : List String :=
  ["config read jsonc-to-json fallback (lines 27-31)",
   "config load with default fallback (lines 24-52)",
   "editor round trip (lines 210-280)"]

/-- The extraction described by the specification for the edited document:
take everything after the first newline following the last occurrence of
"(Current - Editable)", strip leading blank lines, truncate before the
last occurrence of "\n---" when one exists, and trim surrounding
whitespace; undefined when the marker, or a newline after it, is absent.
It coincides definitionally with the code-side `spliceNewText`. -/
def claimExtract (edited : String) : Option String :=
  match strLastIndexOf edited "(Current - Editable)" with
  | none => none
  | some markerIndex =>
    match strIndexOfFrom edited "\n" markerIndex with
    | none => none
    | some afterMarker =>
      let content1 := dropLeadingNewlines (strDropChars edited (afterMarker + 1))
      let content2 :=
        match strLastIndexOf content1 "\n---" with
        | some trailingSeparator => strTakeChars content1 trailingSeparator
        | none => content1
      some (jsTrim content2)

/-! ### Concrete fixtures used by witnesses -/

/-- A configuration with the editor enabled and autoEdit on. -/
def exConfig : Config :=
  { logLevel := "info"
    enableEditor := true
    editor := "code -w"
    autoEdit := true
    showSystemMessages := true
    messageTypes := ["user", "assistant"] }

/-- A plugin state ready to open the editor. -/
def exState : PluginState :=
  { config := exConfig
    capturedSystem := ["S"]
    capturedModel := none
    analytics := Analytics.mk 0 0 0 }

/-- A singleton message list whose last message has one text part. -/
def exMsgs : List MsgEntry :=
  [{ info := MsgInfo.mk "user", parts := [{ type := "text", text := "orig" }] }]

/-- An edited document containing the editable marker. -/
def exEdited : String :=
  "## [1/1] USER (Current - Editable)\nedited\n---\n"

/-! ### Lemmas about the string scanners -/

theorem matchesAt_mem {pat s : List Char} (h : matchesAt pat s = true) :
    ∀ c ∈ pat, c ∈ s := by
  induction pat generalizing s with
  | nil => intro c hc; cases hc
  | cons p ps ih =>
    cases s with
    | nil => simp [matchesAt] at h
    | cons q qs =>
      simp only [matchesAt, Bool.and_eq_true, beq_iff_eq] at h
      intro c hc
      rcases List.mem_cons.mp hc with rfl | hc
      · exact h.1 ▸ List.mem_cons_self _ _
      · exact List.mem_cons_of_mem _ (ih h.2 c hc)

theorem matchesAt_refl (l : List Char) : matchesAt l l = true := by
  induction l with
  | nil => rfl
  | cons c cs ih => simp [matchesAt, ih]

theorem lastOccAux_some {pat l : List Char} {i j : Nat} {acc : Option Nat}
    (h : lastOccAux pat l i acc = some j) :
    (∃ k, matchesAt pat (l.drop k) = true) ∨ acc = some j := by
  induction l generalizing i acc with
  | nil =>
    simp only [lastOccAux] at h
    by_cases hm : matchesAt pat [] = true
    · exact Or.inl ⟨0, hm⟩
    · rw [if_neg hm] at h; exact Or.inr h
  | cons c cs ih =>
    simp only [lastOccAux] at h
    rcases ih h with ⟨k, hk⟩ | hacc
    · exact Or.inl ⟨k + 1, hk⟩
    · by_cases hm : matchesAt pat (c :: cs) = true
      · exact Or.inl ⟨0, hm⟩
      · rw [if_neg hm] at hacc; exact Or.inr hacc

theorem lastOccAux_isSome_acc {pat l : List Char} {i : Nat} {acc : Option Nat}
    (h : acc.isSome = true) : (lastOccAux pat l i acc).isSome = true := by
  induction l generalizing i acc with
  | nil =>
    simp only [lastOccAux]
    split
    · rfl
    · exact h
  | cons c cs ih =>
    simp only [lastOccAux]
    apply ih
    split
    · rfl
    · exact h

theorem lastOccAux_isSome_of {pat l : List Char} {k : Nat}
    (h : matchesAt pat (l.drop k) = true) :
    ∀ i acc, (lastOccAux pat l i acc).isSome = true := by
  induction l generalizing k with
  | nil =>
    intro i acc
    simp only [List.drop_nil] at h
    simp [lastOccAux, h]
  | cons c cs ih =>
    intro i acc
    cases k with
    | zero =>
      simp only [List.drop_zero] at h
      simp only [lastOccAux, h, if_pos]
      exact lastOccAux_isSome_acc rfl
    | succ k =>
      simp only [List.drop_succ_cons] at h
      simp only [lastOccAux]
      exact ih h _ _

theorem strContains_mem {s pat : String} (h : strContains s pat = true) :
    ∀ c ∈ pat.data, c ∈ s.data := by
  intro c hc
  unfold strContains strLastIndexOf at h
  obtain ⟨j, hj⟩ := Option.isSome_iff_exists.mp h
  rcases lastOccAux_some hj with ⟨k, hk⟩ | hacc
  · exact List.drop_subset k s.data (matchesAt_mem hk c hc)
  · cases hacc

theorem strContains_append (a b : String) :
    strContains (a ++ b) b = true := by
  unfold strContains strLastIndexOf
  have hdrop : (a ++ b).data.drop a.data.length = b.data := by
    rw [String.data_append]
    exact List.drop_left a.data b.data
  have hmatch : matchesAt b.data ((a ++ b).data.drop a.data.length) = true := by
    rw [hdrop]; exact matchesAt_refl b.data
  exact lastOccAux_isSome_of hmatch 0 none

/-! ### No lowercase characters in a rendered header prefix -/

theorem char_toUpper_not_lower (c : Char) : (Char.toUpper c).isLower = false := by
  unfold Char.toUpper
  by_cases h : 97 ≤ c.toNat ∧ c.toNat ≤ 122
  · rw [if_pos h]
    have hm1 : 65 ≤ c.toNat - 32 := by omega
    have hm2 : c.toNat - 32 ≤ 90 := by omega
    set m := c.toNat - 32 with hm
    interval_cases m <;> decide
  · rw [if_neg h]
    simp only [Char.isLower, Bool.and_eq_false_iff, decide_eq_false_iff_not]
    by_cases h1 : 97 ≤ c.toNat
    · right
      intro hle
      rw [UInt32.le_def, BitVec.le_def] at hle
      exact h ⟨h1, hle⟩
    · left
      intro hge
      rw [ge_iff_le, UInt32.le_def, BitVec.le_def] at hge
      exact h1 hge

theorem digitChar_not_lower : ∀ m, m < 10 → (Nat.digitChar m).isLower = false := by decide

theorem toDigitsCore_not_lower (fuel : Nat) : ∀ (n : Nat) (acc : List Char),
    (∀ a ∈ acc, a.isLower = false) →
    ∀ c ∈ Nat.toDigitsCore 10 fuel n acc, c.isLower = false := by
  induction fuel with
  | zero => intro n acc hacc c hc; exact hacc c hc
  | succ fuel ih =>
    intro n acc hacc c hc
    unfold Nat.toDigitsCore at hc
    simp only at hc
    by_cases h0 : n / 10 = 0
    · rw [if_pos h0] at hc
      rcases List.mem_cons.mp hc with h | h
      · subst h; exact digitChar_not_lower _ (Nat.mod_lt _ (by omega))
      · exact hacc _ h
    · rw [if_neg h0] at hc
      refine ih _ _ ?_ _ hc
      intro a ha
      rcases List.mem_cons.mp ha with h | h
      · subst h; exact digitChar_not_lower _ (Nat.mod_lt _ (by omega))
      · exact hacc _ h

theorem repr_not_lower (n : Nat) : ∀ c ∈ (Nat.repr n).data, c.isLower = false := by
  intro c hc
  have hd : (Nat.repr n).data = Nat.toDigits 10 n := rfl
  rw [hd] at hc
  exact toDigitsCore_not_lower _ _ _ (by intro a ha; cases ha) _ hc

theorem jsToUpper_not_lower (s : String) :
    ∀ c ∈ (jsToUpper s).data, c.isLower = false := by
  intro c hc
  unfold jsToUpper at hc
  obtain ⟨d, _, rfl⟩ := List.mem_map.mp hc
  exact char_toUpper_not_lower d

theorem msgHeader_not_lower (n i : Nat) (role : String)
    (h : ¬(i = n - 1 ∧ role = "user")) :
    ∀ c ∈ (msgHeader n i role).data, c.isLower = false := by
  intro c hc
  unfold msgHeader at hc
  rw [if_neg h] at hc
  simp only [String.data_append, List.mem_append] at hc
  rcases hc with ((((h1 | h2) | h3) | h4) | h5) | h6
  · exact (by decide : ∀ c ∈ "## [".data, c.isLower = false) c h1
  · exact repr_not_lower (i + 1) c h2
  · exact (by decide : ∀ c ∈ "/".data, c.isLower = false) c h3
  · exact repr_not_lower n c h4
  · exact (by decide : ∀ c ∈ "] ".data, c.isLower = false) c h5
  · exact jsToUpper_not_lower role c h6

theorem msgHeader_marker_iff (n i : Nat) (role : String) :
    strContains (msgHeader n i role) " (Current - Editable)" = true
      ↔ (i = n - 1 ∧ role = "user") := by
  constructor
  · intro h
    by_contra hcond
    have h1 := strContains_mem h 'u' (by decide)
    have h2 := msgHeader_not_lower n i role hcond 'u' h1
    exact absurd h2 (by decide)
  · intro hcond
    have heq : msgHeader n i role
        = ("## [" ++ Nat.repr (i + 1) ++ "/" ++ Nat.repr n ++ "] " ++ jsToUpper role)
          ++ " (Current - Editable)" := by
      unfold msgHeader
      rw [if_pos hcond]
    rw [heq]
    exact strContains_append _ _

/-! ### Lemmas about the log filter -/

theorem jsIndexOfAux_le (x : String) (ys : List String) :
    ∀ i : Nat, jsIndexOfAux x ys i ≤ (i : Int) + ys.length - 1 := by
  induction ys with
  | nil =>
    intro i
    unfold jsIndexOfAux
    have : (0 : Int) ≤ (i : Int) := Int.ofNat_nonneg i
    omega
  | cons y ys ih =>
    intro i
    unfold jsIndexOfAux
    split
    · simp only [List.length_cons]
      have : (0 : Int) ≤ (ys.length : Int) := Int.ofNat_nonneg _
      omega
    · have := ih (i + 1)
      simp only [List.length_cons]
      push_cast at this ⊢
      omega

theorem jsIndexOfAux_nonneg (x : String) (ys : List String) (hx : x ∈ ys) :
    ∀ i : Nat, 0 ≤ jsIndexOfAux x ys i := by
  induction ys with
  | nil => cases hx
  | cons y ys ih =>
    intro i
    unfold jsIndexOfAux
    split
    · exact Int.ofNat_nonneg i
    · rename_i hne
      rcases List.mem_cons.mp hx with rfl | hmem
      · exact absurd rfl hne
      · exact ih hmem _

theorem jsIndexOfAux_not_mem (x : String) (ys : List String) (hx : x ∉ ys) :
    ∀ i : Nat, jsIndexOfAux x ys i = -1 := by
  induction ys with
  | nil => intro i; rfl
  | cons y ys ih =>
    intro i
    unfold jsIndexOfAux
    rw [if_neg (fun h => hx (List.mem_cons.mpr (Or.inl h.symm)))]
    exact ih (fun h => hx (List.mem_cons_of_mem _ h)) _

/-- A record at level "error" passes the filter for every configured
level, valid or not. -/
theorem logCall_error (cfg m : String) :
    logCall cfg "error" m = [{ level := "error", message := m }] := by
  unfold logCall
  rw [if_pos]
  have h1 : jsIndexOf logLevels "error" = 3 := by decide
  have h2 : jsIndexOf logLevels cfg ≤ 3 := by
    have := jsIndexOfAux_le cfg logLevels 0
    simpa [jsIndexOf, logLevels] using this
  rw [ge_iff_le, h1]
  exact h2

theorem logCall_length_le (cfg level m : String) : (logCall cfg level m).length ≤ 1 := by
  unfold logCall
  split
  · simp
  · simp

/-! ### Lemmas about the part update -/

theorem uftp_length (parts : List Part) (t : String) :
    (updateFirstTextPart parts t).length = parts.length := by
  induction parts with
  | nil => rfl
  | cons p rest ih =>
    unfold updateFirstTextPart
    split
    · simp
    · simp [ih]

theorem uftp_get_not_text {parts : List Part} {t : String} {i : Nat} {p : Part}
    (hp : parts[i]? = some p) (hnt : p.type ≠ "text") :
    (updateFirstTextPart parts t)[i]? = some p := by
  induction parts generalizing i with
  | nil => simp at hp
  | cons q rest ih =>
    unfold updateFirstTextPart
    by_cases hq : q.type = "text"
    · rw [if_pos hq]
      cases i with
      | zero =>
        simp only [List.getElem?_cons_zero, Option.some.injEq] at hp
        exact absurd (hp ▸ hq) hnt
      | succ i =>
        simp only [List.getElem?_cons_succ] at hp ⊢
        exact hp
    · rw [if_neg hq]
      cases i with
      | zero =>
        simpa using hp
      | succ i =>
        simp only [List.getElem?_cons_succ] at hp ⊢
        exact ih hp

theorem uftp_get_after {parts : List Part} {t : String} {i : Nat} {p : Part}
    (hp : parts[i]? = some p)
    (hj : ∃ j q, j < i ∧ parts[j]? = some q ∧ q.type = "text") :
    (updateFirstTextPart parts t)[i]? = some p := by
  induction parts generalizing i with
  | nil => simp at hp
  | cons q rest ih =>
    unfold updateFirstTextPart
    by_cases hq : q.type = "text"
    · rw [if_pos hq]
      cases i with
      | zero =>
        obtain ⟨j, _, hji, _, _⟩ := hj
        omega
      | succ i =>
        simp only [List.getElem?_cons_succ] at hp ⊢
        exact hp
    · rw [if_neg hq]
      cases i with
      | zero =>
        obtain ⟨j, _, hji, _, _⟩ := hj
        omega
      | succ i =>
        simp only [List.getElem?_cons_succ] at hp ⊢
        obtain ⟨j, q1, hji, hjq, hjt⟩ := hj
        cases j with
        | zero =>
          simp only [List.getElem?_cons_zero, Option.some.injEq] at hjq
          exact absurd (hjq ▸ hjt) hq
        | succ j =>
          simp only [List.getElem?_cons_succ] at hjq
          exact ih hp ⟨j, q1, by omega, hjq, hjt⟩

theorem uftp_get_first {parts : List Part} {t : String} {i : Nat} {p : Part}
    (hp : parts[i]? = some p) (htext : p.type = "text")
    (hfirst : ∀ j q, j < i → parts[j]? = some q → q.type ≠ "text") :
    (updateFirstTextPart parts t)[i]? = some { p with text := t } := by
  induction parts generalizing i with
  | nil => simp at hp
  | cons q rest ih =>
    unfold updateFirstTextPart
    by_cases hq : q.type = "text"
    · rw [if_pos hq]
      cases i with
      | zero =>
        simp only [List.getElem?_cons_zero, Option.some.injEq] at hp ⊢
        rw [← hp]
      | succ i =>
        exact absurd hq (hfirst 0 q (by omega) (by simp))
    · rw [if_neg hq]
      cases i with
      | zero =>
        simp only [List.getElem?_cons_zero, Option.some.injEq] at hp
        exact absurd (hp ▸ hq) (fun h => h htext)
      | succ i =>
        simp only [List.getElem?_cons_succ] at hp ⊢
        refine ih hp ?_
        intro j q1 hji hjq
        exact hfirst (j + 1) q1 (by omega) (by simpa using hjq)

theorem uftp_firstTextText {parts : List Part} (t : String)
    (h : hasTextPart parts = true) :
    firstTextText (updateFirstTextPart parts t) = some t := by
  induction parts with
  | nil => simp [hasTextPart] at h
  | cons q rest ih =>
    unfold updateFirstTextPart
    by_cases hq : q.type = "text"
    · rw [if_pos hq]
      unfold firstTextText
      rw [List.find?_cons]
      simp [hq]
    · rw [if_neg hq]
      unfold firstTextText at ih ⊢
      rw [List.find?_cons]
      have hrest : hasTextPart rest = true := by
        unfold hasTextPart at h ⊢
        simp only [List.any_cons, Bool.or_eq_true, decide_eq_true_eq] at h
        rcases h with h | h
        · exact absurd h hq
        · exact h
      simp only [decide_eq_true_eq, hq]
      simpa using ih hrest

/-! ### Length bounds for the rendered document -/

theorem renderPart_length_le (p : Part) : (renderPart p).length ≤ 9 := by
  unfold renderPart
  split
  · simp
  · split
    · cases hin : p.input <;> cases hout : p.output <;> simp
    · simp

theorem flatMap_renderPart_le (parts : List Part) :
    (parts.flatMap renderPart).length ≤ 9 * parts.length := by
  induction parts with
  | nil => simp
  | cons p rest ih =>
    simp only [List.flatMap_cons, List.length_append, List.length_cons]
    have := renderPart_length_le p
    omega

theorem msgBlock_length_le (n i : Nat) (m : Msg) :
    (msgBlock n i m).length ≤ 4 + 9 * m.parts.length := by
  unfold msgBlock
  simp only [List.length_append]
  have := flatMap_renderPart_le m.parts
  simp only [List.length_cons, List.length_nil]
  omega

theorem contextPre_length_le (ts : String) (model : Option ModelInfo) (n : Nat) :
    (contextPre ts model n).length ≤ 6 := by
  unfold contextPre
  cases model <;> simp

theorem flatMap_pair_length (sys : List String) :
    (sys.flatMap (fun s => [s, ""])).length = 2 * sys.length := by
  induction sys with
  | nil => simp
  | cons s rest ih =>
    simp only [List.flatMap_cons, List.length_append, List.length_cons, ih]
    simp
    omega

theorem systemSection_length_le (sys : List String) :
    (systemSection sys).length ≤ 4 + 2 * sys.length := by
  unfold systemSection
  split
  · simp only [List.length_append, List.length_cons, List.length_nil,
      flatMap_pair_length]
    omega
  · simp

theorem enumBlocks_length_le (n : Nat) (l : List (Nat × Msg)) :
    (l.flatMap (fun p => msgBlock n p.1 p.2)).length
      ≤ (l.map (fun p => 4 + 9 * p.2.parts.length)).sum := by
  induction l with
  | nil => simp
  | cons p rest ih =>
    simp only [List.flatMap_cons, List.length_append, List.map_cons, List.sum_cons]
    have := msgBlock_length_le n p.1 p.2
    omega

/-! ### Path lemmas for the messages.transform handler -/

/-- Early-return paths: editor off, autoEdit off, empty message list, or a
last message without a text part, all leave everything except the
intercept counter untouched. -/
theorem mt_early (st : PluginState) (msgs : List MsgEntry) (tempDir ts : String)
    (run : EditorRun)
    (h : st.config.enableEditor = false ∨ st.config.autoEdit = false ∨ msgs = []
      ∨ ∀ lm, msgs.getLast? = some lm → hasTextPart lm.parts = false) :
    messagesTransform st msgs tempDir ts run =
      { messages := msgs
        analytics :=
          { st.analytics with messagesIntercepted := st.analytics.messagesIntercepted + 1 }
        logs := logCall st.config.logLevel "info" "Full message context captured"
        editorOpened := false
        written := none
        fsRemaining := [] } := by
  unfold messagesTransform
  rcases h with h | h | h | h
  · rw [if_pos (by simp [h])]
  · rw [if_pos (by simp [h])]
  · subst h
    by_cases hc : (!st.config.enableEditor || !st.config.autoEdit) = true
    · rw [if_pos hc]
    · rw [if_neg hc]
      rfl
  · by_cases hc : (!st.config.enableEditor || !st.config.autoEdit) = true
    · rw [if_pos hc]
    · rw [if_neg hc]
      cases hl : msgs.getLast? with
      | none => rfl
      | some lm =>
        have hft := h lm hl
        simp only [hft, Bool.not_false, if_true]

/-- The fully successful editor path with a marker hit: the splice result
of the handler, spelled out. -/
theorem mt_done_eq (st : PluginState) (msgs : List MsgEntry) (lastMsg : MsgEntry)
    (tempDir ts edited : String) (u : Bool) (t : String)
    (hen : st.config.enableEditor = true) (hau : st.config.autoEdit = true)
    (hl : msgs.getLast? = some lastMsg) (ht : hasTextPart lastMsg.parts = true)
    (hs : spliceNewText edited = some t) :
    messagesTransform st msgs tempDir ts (.done edited u) =
      { messages := msgs.dropLast
          ++ [MsgEntry.mk lastMsg.info (updateFirstTextPart lastMsg.parts t)]
        analytics := Analytics.mk (st.analytics.messagesIntercepted + 1)
          (st.analytics.messagesEdited + 1) (st.analytics.editorSessions + 1)
        logs := logCall st.config.logLevel "info" "Full message context captured"
          ++ logCall st.config.logLevel "info" "Opening editor for full context review"
          ++ logCall st.config.logLevel "info" "User message edited successfully"
          ++ (if u then [] else logCall st.config.logLevel "error" "Failed to edit message")
        editorOpened := true
        written := some (formatFullContext ts
          (if st.config.showSystemMessages then st.capturedSystem else [])
          (msgs.map (fun m => Msg.mk m.info.role m.parts)) st.capturedModel)
        fsRemaining := if u then [tempDir] else [tempDir, tempDir ++ "/message.md"] } := by
  unfold messagesTransform
  rw [hen, hau, hl]
  simp only [Bool.not_true, Bool.or_self, if_false, ht, hs]
  simp

/-- The successful editor path without a marker hit (or without a newline
after it): the messages are untouched, the file round trip still happened. -/
theorem mt_done_none_eq (st : PluginState) (msgs : List MsgEntry) (lastMsg : MsgEntry)
    (tempDir ts edited : String) (u : Bool)
    (hen : st.config.enableEditor = true) (hau : st.config.autoEdit = true)
    (hl : msgs.getLast? = some lastMsg) (ht : hasTextPart lastMsg.parts = true)
    (hs : spliceNewText edited = none) :
    messagesTransform st msgs tempDir ts (.done edited u) =
      { messages := msgs
        analytics := Analytics.mk (st.analytics.messagesIntercepted + 1)
          st.analytics.messagesEdited (st.analytics.editorSessions + 1)
        logs := logCall st.config.logLevel "info" "Full message context captured"
          ++ logCall st.config.logLevel "info" "Opening editor for full context review"
          ++ (if u then [] else logCall st.config.logLevel "error" "Failed to edit message")
        editorOpened := true
        written := some (formatFullContext ts
          (if st.config.showSystemMessages then st.capturedSystem else [])
          (msgs.map (fun m => Msg.mk m.info.role m.parts)) st.capturedModel)
        fsRemaining := if u then [tempDir] else [tempDir, tempDir ++ "/message.md"] } := by
  unfold messagesTransform
  rw [hen, hau, hl]
  simp only [Bool.not_true, Bool.or_self, if_false, ht, hs]
  simp

/-- Every failing editor run ends with the catch block's error record in
the emitted logs. -/
theorem mt_fail_logs_error (st : PluginState) (msgs : List MsgEntry) (lastMsg : MsgEntry)
    (tempDir ts : String) (run : EditorRun)
    (hen : st.config.enableEditor = true) (hau : st.config.autoEdit = true)
    (hl : msgs.getLast? = some lastMsg) (ht : hasTextPart lastMsg.parts = true)
    (hf : runFails run = true) :
    ({ level := "error", message := "Failed to edit message" } : LogRecord)
      ∈ (messagesTransform st msgs tempDir ts run).logs := by
  unfold messagesTransform
  rw [hen, hau, hl]
  simp only [Bool.not_true, Bool.or_self, if_false, ht]
  cases run with
  | mkdtempFail => simp [logCall_error]
  | writeFail => simp [logCall_error]
  | execFail => simp [logCall_error]
  | readFail => simp [logCall_error]
  | done edited unlinkOk =>
    cases unlinkOk with
    | true => simp [runFails] at hf
    | false =>
      cases hsp : spliceNewText edited with
      | none => simp [hsp, logCall_error]
      | some t2 => simp [hsp, ht, logCall_error]

/-! ### The claims -/

/-- C10: a call to `log` emits a record exactly when the index of the call
level in ["debug", "info", "warn", "error"] is at least the index of
`config.logLevel` there; a `logLevel` outside the list (index -1) lets
every level through. -/
theorem c10_log_level_filter (cfg level msg : String) (hlev : level ∈ logLevels) :
    (logCall cfg level msg = [{ level := level, message := msg }]
      ↔ jsIndexOf logLevels level ≥ jsIndexOf logLevels cfg)
    ∧ (cfg ∉ logLevels → logCall cfg level msg = [{ level := level, message := msg }]) := by
  constructor
  · unfold logCall
    split
    · rename_i hcond
      exact iff_of_true rfl hcond
    · rename_i hcond
      exact iff_of_false (by simp) hcond
  · intro hno
    have hidx : jsIndexOf logLevels cfg = -1 := jsIndexOfAux_not_mem cfg logLevels hno 0
    have hpos : jsIndexOf logLevels level ≥ jsIndexOf logLevels cfg := by
      rw [ge_iff_le, hidx]
      have hn := jsIndexOfAux_nonneg level logLevels hlev 0
      unfold jsIndexOf
      omega
    unfold logCall
    rw [if_pos hpos]

/-- C10 witness: with an invalid configured level, an error-level call
still emits. -/
theorem c10_witness :
    logCall "badlevel" "error" "m" = [{ level := "error", message := "m" }] :=
  (c10_log_level_filter "badlevel" "error" "m" (by decide)).2 (by decide)

/-- C8: with the editor disabled, autoEdit off, an empty message list, or
a last message without a text part, the handler leaves the messages
untouched, opens no editor, touches no filesystem entry, and increments
only the intercept counter. -/
theorem c8_guard_frame (st : PluginState) (msgs : List MsgEntry) (tempDir ts : String)
    (run : EditorRun)
    (h : st.config.enableEditor = false ∨ st.config.autoEdit = false ∨ msgs = []
      ∨ ∀ lm, msgs.getLast? = some lm → hasTextPart lm.parts = false) :
    messagesTransform st msgs tempDir ts run =
      { messages := msgs
        analytics := Analytics.mk (st.analytics.messagesIntercepted + 1)
          st.analytics.messagesEdited st.analytics.editorSessions
        logs := logCall st.config.logLevel "info" "Full message context captured"
        editorOpened := false
        written := none
        fsRemaining := [] } :=
  mt_early st msgs tempDir ts run h

/-- C8 witness: the empty message list at a concrete state. -/
theorem c8_witness :
    messagesTransform exState [] "/tmp/d" "T" EditorRun.mkdtempFail =
      { messages := []
        analytics := Analytics.mk 1 0 0
        logs := [{ level := "info", message := "Full message context captured" }]
        editorOpened := false
        written := none
        fsRemaining := [] } := by
  rw [c8_guard_frame exState [] "/tmp/d" "T" EditorRun.mkdtempFail (Or.inr (Or.inr (Or.inl rfl)))]
  decide

/-- C4 counterexample: the hooks object returned by the plugin factory
does not have four handler entries. -/
theorem c4_counterexample : ¬ registeredHooks.length = 4 := by decide

/-- C4 (amended): the plugin factory registers exactly five callback
handlers, under five distinct keys. -/
theorem c4_five_hooks : registeredHooks.length = 5 ∧ registeredHooks.Nodup := by decide

/-- C3 counterexample: the failure handling is not a single try/catch
around the shell invocation — there are three guarded regions, and at a
concrete failing input the config loader catches the error and returns
the defaults with a warn record instead of propagating. -/
theorem c3_counterexample :
    ¬ tryCatchRegions.length = 1
    ∧ loadConfig none (Except.error "ENOENT") (Except.error "ENOENT")
        (fun _ => Except.error "unused")
      = (defaultConfig none, [{ level := "warn", message := "Using default configuration" }]) :=
  ⟨by decide, rfl⟩

/-- C3 (amended): the plugin has three try/catch constructs: the inner
config-read fallback from the jsonc file to the json file, the outer
config loader that catches any read or parse error and keeps the defaults
with a warn log, and the editor round trip, whose every failure is caught
and answered with an error log record instead of propagating. -/
theorem c3_failure_handling :
    tryCatchRegions.length = 3
    ∧ (∀ e jsonFile, readConfigData (Except.error e) jsonFile = jsonFile)
    ∧ (∀ envEditor e1 e2 parse,
        loadConfig envEditor (Except.error e1) (Except.error e2) parse
          = (defaultConfig envEditor,
             [{ level := "warn", message := "Using default configuration" }]))
    ∧ (∀ envEditor s jsonFile parse e, parse s = Except.error e →
        loadConfig envEditor (Except.ok s) jsonFile parse
          = (defaultConfig envEditor,
             [{ level := "warn", message := "Using default configuration" }]))
    ∧ (∀ (st : PluginState) (msgs : List MsgEntry) (lastMsg : MsgEntry)
        (tempDir ts : String) (run : EditorRun),
        st.config.enableEditor = true → st.config.autoEdit = true →
        msgs.getLast? = some lastMsg → hasTextPart lastMsg.parts = true →
        runFails run = true →
        ({ level := "error", message := "Failed to edit message" } : LogRecord)
          ∈ (messagesTransform st msgs tempDir ts run).logs) := by
  refine ⟨by decide, fun e jsonFile => rfl, fun envEditor e1 e2 parse => rfl, ?_, ?_⟩
  · intro envEditor s jsonFile parse e hparse
    have hstep : loadConfig envEditor (Except.ok s) jsonFile parse
        = (match parse s with
           | Except.error _ =>
             (defaultConfig envEditor,
              [{ level := "warn", message := "Using default configuration" }])
           | Except.ok p =>
             (mergeConfig (defaultConfig envEditor) p,
              [{ level := "info",
                 message := "Configuration loaded from .micromanager.json" }])) := rfl
    rw [hstep, hparse]
  · intro st msgs lastMsg tempDir ts run hen hau hl ht hf
    exact mt_fail_logs_error st msgs lastMsg tempDir ts run hen hau hl ht hf

/-- C3 witness: a concrete failing editor run is caught and logged. -/
theorem c3_witness :
    ({ level := "error", message := "Failed to edit message" } : LogRecord)
      ∈ (messagesTransform exState exMsgs "/tmp/d" "T" EditorRun.execFail).logs :=
  c3_failure_handling.2.2.2.2 exState exMsgs
    ⟨MsgInfo.mk "user", [{ type := "text", text := "orig" }]⟩ "/tmp/d" "T"
    EditorRun.execFail rfl rfl (by decide) (by decide) rfl

/-- C6 counterexample: an invocation in which every step of the round trip
succeeds — so the temporary directory and file were created — still leaves
a filesystem entry (the directory) behind on return. -/
theorem c6_counterexample :
    (messagesTransform exState exMsgs "/tmp/opencode-message-x" "T"
        (EditorRun.done exEdited true)).editorOpened = true
    ∧ (messagesTransform exState exMsgs "/tmp/opencode-message-x" "T"
        (EditorRun.done exEdited true)).fsRemaining ≠ [] := by
  decide

/-- C6 (amended): after a round trip in which every step including the
final unlink succeeds, the temporary file is no longer present but the
temporary directory the handler created remains on the filesystem. -/
theorem c6_tempdir_remains (st : PluginState) (msgs : List MsgEntry) (lastMsg : MsgEntry)
    (tempDir ts edited : String)
    (hen : st.config.enableEditor = true) (hau : st.config.autoEdit = true)
    (hl : msgs.getLast? = some lastMsg) (ht : hasTextPart lastMsg.parts = true) :
    (messagesTransform st msgs tempDir ts (EditorRun.done edited true)).fsRemaining = [tempDir]
    ∧ tempDir ++ "/message.md"
        ∉ (messagesTransform st msgs tempDir ts (EditorRun.done edited true)).fsRemaining := by
  have hfs : (messagesTransform st msgs tempDir ts (EditorRun.done edited true)).fsRemaining
      = [tempDir] := by
    cases hsp : spliceNewText edited with
    | none =>
      rw [mt_done_none_eq st msgs lastMsg tempDir ts edited true hen hau hl ht hsp]
      simp
    | some t =>
      rw [mt_done_eq st msgs lastMsg tempDir ts edited true t hen hau hl ht hsp]
      simp
  refine ⟨hfs, ?_⟩
  rw [hfs]
  intro hmem
  have heq : tempDir ++ "/message.md" = tempDir := List.mem_singleton.mp hmem
  have hdata := congrArg String.data heq
  rw [String.data_append] at hdata
  have hlen := congrArg List.length hdata
  rw [List.length_append] at hlen
  have h11 : ("/message.md".data).length = 11 := by decide
  omega

/-- C6 witness: the concrete successful run keeps exactly the directory. -/
theorem c6_witness :
    (messagesTransform exState exMsgs "/tmp/opencode-message-x" "T"
        (EditorRun.done exEdited true)).fsRemaining = ["/tmp/opencode-message-x"] :=
  (c6_tempdir_remains exState exMsgs
    ⟨MsgInfo.mk "user", [{ type := "text", text := "orig" }]⟩
    "/tmp/opencode-message-x" "T" exEdited rfl rfl (by decide) (by decide)).1

/-- C7: the work per invocation is bounded by the lengths of the inputs:
the rendered document has at most a constant number of lines beyond two
per system string and 4 + 9·parts per message, and every handler run emits
at most four log records.  (All embedded handlers are structurally
recursive total functions, so each invocation completes in finitely many
steps.) -/
theorem c7_bounded_work (ts : String) (sys : List String) (msgs : List Msg)
    (model : Option ModelInfo) :
    (formatFullContextLines ts sys msgs model).length
      ≤ 10 + 2 * sys.length + (msgs.map (fun m => 4 + 9 * m.parts.length)).sum
    ∧ ∀ (st : PluginState) (ms : List MsgEntry) (d t : String) (run : EditorRun),
        (messagesTransform st ms d t run).logs.length ≤ 4 := by
  constructor
  · unfold formatFullContextLines
    simp only [List.length_append]
    have h1 := contextPre_length_le ts model msgs.length
    have h2 := systemSection_length_le sys
    have h3 := enumBlocks_length_le msgs.length msgs.enum
    have h4 : (msgs.enum.map (fun p => 4 + 9 * p.2.parts.length)).sum
        = (msgs.map (fun m => 4 + 9 * m.parts.length)).sum := by
      have hmap : msgs.enum.map (fun p => 4 + 9 * p.2.parts.length)
          = (msgs.enum.map Prod.snd).map (fun m => 4 + 9 * m.parts.length) := by
        rw [List.map_map]
        rfl
      rw [hmap, List.enum_map_snd]
    omega
  · intro st ms d t run
    have l1 := logCall_length_le st.config.logLevel "info" "Full message context captured"
    have l2 := logCall_length_le st.config.logLevel "info" "Opening editor for full context review"
    have l3 := logCall_length_le st.config.logLevel "info" "User message edited successfully"
    have l4 := logCall_length_le st.config.logLevel "error" "Failed to edit message"
    unfold messagesTransform
    cases run <;> dsimp only <;> (repeat' split) <;>
      (try simp only [List.length_append, List.length_nil]) <;> omega

/-- C1: when the round trip succeeds and the edited document contains the
editable marker (with content after its header line), the text of the
first text part of the last message becomes exactly the described
extraction; `claimExtract` is that extraction, and it is what the code
splices in. -/
theorem c1_splice_applied (st : PluginState) (msgs : List MsgEntry) (lastMsg : MsgEntry)
    (tempDir ts edited : String) (u : Bool) (t : String)
    (hen : st.config.enableEditor = true) (hau : st.config.autoEdit = true)
    (hl : msgs.getLast? = some lastMsg) (ht : hasTextPart lastMsg.parts = true)
    (hx : claimExtract edited = some t) :
    strContains edited "(Current - Editable)" = true
    ∧ spliceNewText edited = some t
    ∧ (messagesTransform st msgs tempDir ts (EditorRun.done edited u)).messages
        = msgs.dropLast ++ [MsgEntry.mk lastMsg.info (updateFirstTextPart lastMsg.parts t)]
    ∧ firstTextText (updateFirstTextPart lastMsg.parts t) = some t := by
  have hs : spliceNewText edited = some t := hx
  refine ⟨?_, hs, ?_, uftp_firstTextText t ht⟩
  · unfold claimExtract at hx
    unfold strContains
    cases hm : strLastIndexOf edited "(Current - Editable)" with
    | none => rw [hm] at hx; cases hx
    | some k => rfl
  · rw [mt_done_eq st msgs lastMsg tempDir ts edited u t hen hau hl ht hs]

/-- C1 witness: the concrete edited document replaces the text part with
the extracted "edited". -/
theorem c1_witness :
    (messagesTransform exState exMsgs "/tmp/d" "T" (EditorRun.done exEdited true)).messages
      = exMsgs.dropLast ++ [MsgEntry.mk (MsgInfo.mk "user")
          (updateFirstTextPart [{ type := "text", text := "orig" }] "edited")] :=
  (c1_splice_applied exState exMsgs
    ⟨MsgInfo.mk "user", [{ type := "text", text := "orig" }]⟩ "/tmp/d" "T" exEdited true
    "edited" rfl rfl (by decide) (by decide) (by decide)).2.2.1

/-- C9: when the splice occurs, only the text of the first text part of
the last message changes — the preceding messages, the last message's
info, its non-text parts, and its text parts after the first are all
preserved. -/
theorem c9_splice_frame (st : PluginState) (msgs : List MsgEntry) (lastMsg : MsgEntry)
    (tempDir ts edited : String) (u : Bool) (t : String)
    (hen : st.config.enableEditor = true) (hau : st.config.autoEdit = true)
    (hl : msgs.getLast? = some lastMsg) (ht : hasTextPart lastMsg.parts = true)
    (hs : spliceNewText edited = some t) :
    (messagesTransform st msgs tempDir ts (EditorRun.done edited u)).messages
      = msgs.dropLast ++ [MsgEntry.mk lastMsg.info (updateFirstTextPart lastMsg.parts t)]
    ∧ (messagesTransform st msgs tempDir ts (EditorRun.done edited u)).messages.dropLast
      = msgs.dropLast
    ∧ (messagesTransform st msgs tempDir ts (EditorRun.done edited u)).messages.getLast?
      = some (MsgEntry.mk lastMsg.info (updateFirstTextPart lastMsg.parts t))
    ∧ (updateFirstTextPart lastMsg.parts t).length = lastMsg.parts.length
    ∧ (∀ (i : Nat) (p : Part), lastMsg.parts[i]? = some p → p.type ≠ "text" →
        (updateFirstTextPart lastMsg.parts t)[i]? = some p)
    ∧ (∀ (i : Nat) (p : Part), lastMsg.parts[i]? = some p →
        (∃ (j : Nat) (q : Part), j < i ∧ lastMsg.parts[j]? = some q ∧ q.type = "text") →
        (updateFirstTextPart lastMsg.parts t)[i]? = some p)
    ∧ (∀ (i : Nat) (p : Part), lastMsg.parts[i]? = some p → p.type = "text" →
        (∀ (j : Nat) (q : Part), j < i → lastMsg.parts[j]? = some q → q.type ≠ "text") →
        (updateFirstTextPart lastMsg.parts t)[i]? = some { p with text := t }) := by
  have hmt := mt_done_eq st msgs lastMsg tempDir ts edited u t hen hau hl ht hs
  refine ⟨by rw [hmt], ?_, ?_, uftp_length _ _,
    fun i p hp hnt => uftp_get_not_text hp hnt,
    fun i p hp hj => uftp_get_after hp hj,
    fun i p hp htx hf => uftp_get_first hp htx hf⟩
  · rw [hmt]
    exact List.dropLast_concat
  · rw [hmt]
    exact List.getLast?_concat _

/-- C9 witness: at the concrete run, the preceding messages are unchanged. -/
theorem c9_witness :
    (messagesTransform exState exMsgs "/tmp/d" "T"
        (EditorRun.done exEdited true)).messages.dropLast = exMsgs.dropLast :=
  (c9_splice_frame exState exMsgs
    ⟨MsgInfo.mk "user", [{ type := "text", text := "orig" }]⟩ "/tmp/d" "T" exEdited true
    "edited" rfl rfl (by decide) (by decide) (by decide)).2.1

/-- C2: the document lines are the preamble, the system section, and the
per-message blocks in list order; the block of message `i` starts with the
header "## [i+1/N] ROLE", the header is a line of the document, and the
suffix " (Current - Editable)" occurs in a header exactly for the last
message when its role is "user". -/
theorem c2_headers (ts : String) (sys : List String) (msgs : List Msg)
    (model : Option ModelInfo) :
    (formatFullContextLines ts sys msgs model
      = contextPre ts model msgs.length ++ systemSection sys
        ++ msgs.enum.flatMap (fun p => msgBlock msgs.length p.1 p.2))
    ∧ ∀ (i : Nat) (hi : i < msgs.length),
        (msgHeader msgs.length i msgs[i].role
          = "## [" ++ Nat.repr (i + 1) ++ "/" ++ Nat.repr msgs.length ++ "] "
            ++ jsToUpper msgs[i].role
            ++ (if i = msgs.length - 1 ∧ msgs[i].role = "user"
                then " (Current - Editable)" else ""))
        ∧ (msgBlock msgs.length i msgs[i]).head?
            = some (msgHeader msgs.length i msgs[i].role)
        ∧ msgHeader msgs.length i msgs[i].role ∈ formatFullContextLines ts sys msgs model
        ∧ (strContains (msgHeader msgs.length i msgs[i].role) " (Current - Editable)" = true
            ↔ (i = msgs.length - 1 ∧ msgs[i].role = "user")) := by
  refine ⟨rfl, fun i hi => ⟨?_, rfl, ?_, msgHeader_marker_iff _ _ _⟩⟩
  · unfold msgHeader
    split
    · rfl
    · simp
  · unfold formatFullContextLines
    refine List.mem_append.mpr (Or.inr ?_)
    refine List.mem_flatMap.mpr ⟨(i, msgs[i]), ?_, ?_⟩
    · have hlen : i < msgs.enum.length := by
        rw [List.enum_length]
        exact hi
      have hget := List.getElem_enum msgs i hlen
      rw [← hget]
      exact List.getElem_mem hlen
    · unfold msgBlock
      exact List.mem_append.mpr (Or.inl (List.mem_append.mpr
        (Or.inl (List.mem_cons_self _ _))))

/-- C2 witness: the single-user-message document carries the editable
suffix on its header. -/
theorem c2_witness :
    strContains (msgHeader 1 0 "user") " (Current - Editable)" = true :=
  ((c2_headers "T" [] [Msg.mk "user" []] none).2 0 (by decide)).2.2.2.mpr (by decide)

/-- C5: the document handed to the editor contains the system-prompt
section listing the strings captured by a prior system.transform
invocation exactly when showSystemMessages is set and the captured array
is non-empty. -/
theorem c5_system_prompt (st0 : PluginState) (inModel : Option ModelInfo)
    (sys : List String) (msgs : List MsgEntry) (lastMsg : MsgEntry)
    (tempDir ts edited : String) (u : Bool)
    (hen : st0.config.enableEditor = true) (hau : st0.config.autoEdit = true)
    (hl : msgs.getLast? = some lastMsg) (ht : hasTextPart lastMsg.parts = true) :
    (systemTransform st0 inModel sys).1.capturedSystem = sys
    ∧ (messagesTransform (systemTransform st0 inModel sys).1 msgs tempDir ts
          (EditorRun.done edited u)).written
        = some (formatFullContext ts
            (if st0.config.showSystemMessages then sys else [])
            (msgs.map (fun m => Msg.mk m.info.role m.parts)) inModel)
    ∧ (∀ (ts2 : String) (sys2 : List String) (msgs2 : List Msg) (model2 : Option ModelInfo),
        formatFullContext ts2 sys2 msgs2 model2
          = String.intercalate "\n" (contextPre ts2 model2 msgs2.length
              ++ systemSection sys2
              ++ msgs2.enum.flatMap (fun p => msgBlock msgs2.length p.1 p.2)))
    ∧ (systemSection (if st0.config.showSystemMessages then sys else [])
        = if st0.config.showSystemMessages = true ∧ sys ≠ [] then
            ["## System Prompt", ""] ++ sys.flatMap (fun s => [s, ""]) ++ ["---", ""]
          else [])
    ∧ (st0.config.showSystemMessages = true ∧ sys ≠ [] →
        "## System Prompt" ∈ systemSection sys ∧ ∀ s ∈ sys, s ∈ systemSection sys) := by
  have hen2 : (systemTransform st0 inModel sys).1.config.enableEditor = true := hen
  have hau2 : (systemTransform st0 inModel sys).1.config.autoEdit = true := hau
  refine ⟨rfl, ?_, fun ts2 sys2 msgs2 model2 => rfl, ?_, ?_⟩
  · cases hsp : spliceNewText edited with
    | none =>
      rw [mt_done_none_eq (systemTransform st0 inModel sys).1 msgs lastMsg tempDir ts
        edited u hen2 hau2 hl ht hsp]
      rfl
    | some t =>
      rw [mt_done_eq (systemTransform st0 inModel sys).1 msgs lastMsg tempDir ts
        edited u t hen2 hau2 hl ht hsp]
      rfl
  · by_cases hshow : st0.config.showSystemMessages = true
    · rw [hshow]
      by_cases hsys : sys = []
      · subst hsys
        simp [systemSection]
      · unfold systemSection
        have hcond : (true = true ∧ sys ≠ []) := ⟨rfl, hsys⟩
        rw [if_pos (by simpa using List.length_pos.mpr hsys), if_pos hcond]
        simp
    · have hfalse : st0.config.showSystemMessages = false := by
        cases hb : st0.config.showSystemMessages
        · rfl
        · exact absurd hb hshow
      rw [hfalse]
      simp [systemSection]
  · rintro ⟨hshow, hsys⟩
    unfold systemSection
    rw [if_pos (by simpa using List.length_pos.mpr hsys)]
    constructor
    · exact List.mem_append.mpr (Or.inl (List.mem_append.mpr
        (Or.inl (List.mem_cons_self _ _))))
    · intro s hs
      refine List.mem_append.mpr (Or.inl (List.mem_append.mpr (Or.inr ?_)))
      exact List.mem_flatMap.mpr ⟨s, hs, List.mem_cons_self _ _⟩

/-- C5 witness: the concrete run writes the document rendered with the
captured system prompt. -/
theorem c5_witness :
    (messagesTransform (systemTransform exState none ["S"]).1 exMsgs "/tmp/d" "T"
        (EditorRun.done exEdited true)).written
      = some (formatFullContext "T"
          (if exState.config.showSystemMessages then ["S"] else [])
          (exMsgs.map (fun m => Msg.mk m.info.role m.parts)) none) :=
  (c5_system_prompt exState none ["S"] exMsgs
    ⟨MsgInfo.mk "user", [{ type := "text", text := "orig" }]⟩ "/tmp/d" "T" exEdited true
    rfl rfl (by decide) (by decide)).2.1

end Micromanager
